import Mathlib

/-!
Verification of the instanced-attribute buffer allocator of `three-emitter`
(`src/Emitter.ts` and `src/EmitterInstance.ts`), shallowly embedded in Lean.

Buffers (`Float32Array`) are modelled as `List Int` (the claims under study
only move data around, no float arithmetic is involved); JS objects used as
string-keyed records are modelled as association lists; the two mutable
classes `Emitter` and `EmitterInstance` become explicit state records, with
`EmitterInstance` objects held in an arena (`Sys.insts`) indexed by position
so that object identity is a `Nat`.  Operations that can throw a JS
`RangeError` (`TypedArray.prototype.set` with an overflowing source) return
`Option`.
-/

namespace ThreeEmitter

/-- JS object property read (`obj[name]`) for a string-keyed record. -/
def lookupA {α : Type} : List (String × α) → String → Option α
  | [], _ => none
  | (k, v) :: rest, key => if k = key then some v else lookupA rest key

/-- JS object property write (`obj[name] = v`): overwrite in place if the key
exists, otherwise append (JS objects keep insertion order). -/
def updateA {α : Type} : List (String × α) → String → α → List (String × α)
  | [], key, v => [(key, v)]
  | (k, w) :: rest, key, v =>
    if k = key then (key, v) :: rest else (k, w) :: updateA rest key v

/-- ECMAScript relative-index conversion used by `subarray`/`fill`:
negative indices count from the end, results are clamped to `[0, len]`. -/
def relIndex (len : Nat) (i : Int) : Nat :=
  if i < 0 then (i + len).toNat else min i.toNat len

/-- `TypedArray.prototype.set(src, offset)`: throws a `RangeError`
(modelled as `none`) when `src.length + offset > dst.length`, otherwise
overwrites `dst[offset .. offset+src.length)` with `src`. -/
def jsSet (dst src : List Int) (offset : Nat) : Option (List Int) :=
  if src.length + offset ≤ dst.length then
    some (dst.take offset ++ src ++ dst.drop (offset + src.length))
  else none

/-- `TypedArray.prototype.fill(v, start)` (fill to the end of the array),
with JS relative-index semantics for `start`. Never throws. -/
def jsFillFrom (l : List Int) (v : Int) (start : Int) : List Int :=
  let s := relIndex l.length start
  l.take s ++ List.replicate (l.length - s) v

/-- A THREE `BufferAttribute` as the allocator sees it: backing storage,
item width, the needs-re-upload flag, and whether it was declared as a
`THREE.InstancedBufferAttribute` (the declared type; the allocator's
classification never consults it). -/
structure BAttr where
  array : List Int
  itemSize : Nat
  needsUpdate : Bool
  isInstanced : Bool
deriving DecidableEq, Repr

/-- THREE's `BufferAttribute.count = array.length / itemSize`. -/
def BAttr.count (a : BAttr) : Nat := a.array.length / a.itemSize

/-- The `InstancedBufferGeometry` state the allocator touches. -/
structure Geo where
  attrs : List (String × BAttr)
  instanceCount : Int
deriving DecidableEq, Repr

/-- An `EmitterInstance`'s per-attribute view: either a bounded subarray
window `[start, stop)` wrapped in the needs-update `Proxy`
(per-instance attributes), or the raw whole backing buffer
(per draw-call attributes). -/
inductive ViewKind
  | sub (start stop : Nat)
  | whole
deriving DecidableEq, Repr

/-- The mutable state of one `EmitterInstance`. -/
structure InstState where
  particleAmount : Int
  attributeIndices : List (String × Nat)
  attrViews : List (String × ViewKind)
deriving DecidableEq, Repr

/-- The mutable state of an `Emitter` (its geometry, registered-instance
set in insertion order, and the `time` uniform machinery). -/
structure EmState where
  maxParticles : Int
  geo : Geo
  known : List Nat
  time : ℚ
  timestamp : ℚ
deriving DecidableEq, Repr

/-- Whole system: one emitter plus the arena of every `EmitterInstance`
ever constructed against it (arena index = object identity). -/
structure Sys where
  em : EmState
  insts : List InstState
deriving DecidableEq, Repr

/-- `new Emitter({maxParticles, attributes})`: fresh geometry with
`instanceCount = 0`, the given attributes, `time` uniform `0`,
`timestamp` field `0`, no known instances. -/
def mkEmitter (maxP : Int) (attrsL : List (String × BAttr)) : Sys :=
  { em := { maxParticles := maxP
            geo := { attrs := attrsL, instanceCount := 0 }
            known := []
            time := 0
            timestamp := 0 }
    insts := [] }

/-- One iteration of the loop in `EmitterInstance.calculateAttributeSubarrays`:
classify one geometry attribute and record the instance's index/view for it. -/
def calcStep (maxP T : Int) (ist : InstState) (name : String) (attr : BAttr) : InstState :=
  if (attr.count : Int) ≥ maxP then
    let startI : Int :=
      match lookupA ist.attributeIndices name with
      | some n => (n : Int)
      | none => max 0 (T * attr.itemSize)
    let endI : Int := min (attr.array.length : Int) (startI + ist.particleAmount * attr.itemSize)
    let s := relIndex attr.array.length startI
    let e := relIndex attr.array.length endI
    { ist with
      attributeIndices := updateA ist.attributeIndices name startI.toNat
      attrViews := updateA ist.attrViews name (.sub s (max e s)) }
  else if (lookupA ist.attrViews name).isNone then
    { ist with attrViews := updateA ist.attrViews name .whole }
  else ist

/-- `EmitterInstance.calculateAttributeSubarrays`: iterate over the
geometry's attributes in declaration order.  `T` is the geometry's
`instanceCount` at call time ("current total active items"). -/
def calcSubarrays (maxP T : Int) (attrsL : List (String × BAttr)) (ist : InstState) : InstState :=
  attrsL.foldl (fun i p => calcStep maxP T i p.1 p.2) ist

/-- `Emitter.instanceAdded`: a set-membership guard, then append to the
known set and bump `instanceCount` clamped above by `maxParticles`. -/
def instanceAdded (s : Sys) (id : Nat) : Sys :=
  if id ∈ s.em.known then s
  else
    match s.insts.get? id with
    | none => s
    | some inst =>
      { s with
        em := { s.em with
                known := s.em.known ++ [id]
                geo := { s.em.geo with
                         instanceCount :=
                           min s.em.maxParticles
                             (s.em.geo.instanceCount + inst.particleAmount) } } }

/-- `new EmitterInstance(emitter, particleAmount)`: build the instance,
compute its subarray views (before registration, so the base offsets use
the pre-registration `instanceCount`), then register it. -/
def newInstance (s : Sys) (pa : Int) : Sys :=
  let inst0 : InstState := { particleAmount := pa, attributeIndices := [], attrViews := [] }
  let inst1 := calcSubarrays s.em.maxParticles s.em.geo.instanceCount s.em.geo.attrs inst0
  let s1 : Sys := { s with insts := s.insts ++ [inst1] }
  instanceAdded s1 s.insts.length

/-- One iteration of the loop in `Emitter.removeAndShiftAttributes`:
for one of the removed instance's views, shift the geometry buffer's data
left over the removed range, zero-fill the vacated tail
(`fill(0, start - end)` — a negative JS relative index, i.e. the last
`end - start` slots), and mark the attribute dirty. -/
def shiftStep (g : Geo) (inst : InstState) (name : String) (vk : ViewKind) : Option Geo :=
  match lookupA g.attrs name with
  | none => some g
  | some attr =>
    let len := attr.array.length
    let viewLen := match vk with | .sub a b => b - a | .whole => len
    let start := (lookupA inst.attributeIndices name).getD 0
    let stop := start + viewLen
    match jsSet attr.array (attr.array.drop (min stop len)) start with
    | none => none
    | some arr1 =>
      let arr2 := jsFillFrom arr1 0 ((start : Int) - stop)
      some { g with attrs := updateA g.attrs name { attr with array := arr2, needsUpdate := true } }

/-- The loop of `Emitter.removeAndShiftAttributes` over the removed
instance's views, in insertion order. -/
def shiftAll (g : Geo) (inst : InstState) : List (String × ViewKind) → Option Geo
  | [] => some g
  | (name, vk) :: rest =>
    match shiftStep g inst name vk with
    | none => none
    | some g' => shiftAll g' inst rest

/-- `Emitter.removeAndShiftAttributes`. -/
def removeAndShiftAttributes (g : Geo) (inst : InstState) : Option Geo :=
  shiftAll g inst inst.attrViews

/-- `Emitter.instanceRemoved`: membership guard, clamped decrement of
`instanceCount`, buffer compaction, then removal from the known set. -/
def instanceRemoved (s : Sys) (id : Nat) : Option Sys :=
  if id ∈ s.em.known then
    match s.insts.get? id with
    | none => none
    | some inst =>
      let g1 := { s.em.geo with
                  instanceCount := max 0 (s.em.geo.instanceCount - inst.particleAmount) }
      match removeAndShiftAttributes g1 inst with
      | none => none
      | some g2 =>
        some { s with em := { s.em with geo := g2, known := s.em.known.erase id } }
  else some s

/-- The getter `Emitter.particleAmount`. -/
def emParticleAmountGet (s : Sys) : Int := s.em.geo.instanceCount

/-- The setter `Emitter.particleAmount` — a raw passthrough to
`geometry.instanceCount`. -/
def emParticleAmountSet (s : Sys) (amount : Int) : Sys :=
  { s with em := { s.em with geo := { s.em.geo with instanceCount := amount } } }

/-- JS `a && b` on numbers (`0` is falsy). -/
def jsAnd (a b : ℚ) : ℚ := if a = 0 then a else b

/-- JS `a || b` on numbers (`0` is falsy). -/
def jsOr (a b : ℚ) : ℚ := if a = 0 then b else a

/-- `Emitter.update`: `time += timestamp && (now - timestamp) / 1000 || 0;
timestamp = now` (the scheduling of the next tick is host plumbing and out
of scope). -/
def emUpdate (s : Sys) (now : ℚ) : Sys :=
  { s with
    em := { s.em with
            time := s.em.time + jsOr (jsAnd s.em.timestamp ((now - s.em.timestamp) / 1000)) 0
            timestamp := now } }

/-- Return type of the generator form accepted by `Emitter.fillAttribute`
(`number | number[]`). -/
inductive EGenRet
  | num (v : Int)
  | arr (vs : List Int)

/-- `Array.isArray(val) ? val : [val]`. -/
def EGenRet.toL : EGenRet → List Int
  | .num v => [v]
  | .arr vs => vs

/-- The `value` argument of `Emitter.fillAttribute`
(`number | number[] | ((index) => number | number[])`). -/
inductive EFillVal
  | scalar (v : Int)
  | vec (vs : List Int)
  | gen (f : Nat → EGenRet)

/-- The tiling loop of `Emitter.fillAttribute` for an array value:
`for (i = 0; i < data.length; i += value.length) data.set(value, i)`.
`data.set` throws (`none`) on an overflowing tail tile.  The loop is run
on `data.length + 1` fuel, enough for any nonempty `vs`; an empty `vs`
loops forever in JS, which exhausts the fuel (`none`). -/
def vecLoopE (vs : List Int) : Nat → List Int → Nat → Option (List Int)
  | 0, _, _ => none
  | fuel + 1, data, i =>
    if i < data.length then
      match jsSet data vs i with
      | none => none
      | some d => vecLoopE vs fuel d (i + vs.length)
    else some data

/-- The generator loop of `Emitter.fillAttribute`:
`while (destIndex < data.length) { val = value(sourceIndex++);
arr = Array.isArray(val) ? val : [val]; data.set(arr, destIndex);
destIndex += arr.length }`.  Fuel as in `vecLoopE`. -/
def genLoopE (f : Nat → EGenRet) : Nat → List Int → Nat → Nat → Option (List Int)
  | 0, _, _, _ => none
  | fuel + 1, data, src, dest =>
    if dest < data.length then
      match jsSet data (f src).toL dest with
      | none => none
      | some d => genLoopE f fuel d (src + 1) (dest + (f src).toL.length)
    else some data

/-- The body of `Emitter.fillAttribute` acting on the backing array. -/
def emFillData (data : List Int) : EFillVal → Option (List Int)
  | .scalar v => some (jsFillFrom data v 0)
  | .vec vs => vecLoopE vs (data.length + 1) data 0
  | .gen f => genLoopE f (data.length + 1) data 0 0

/-- `Emitter.fillAttribute`: silent no-op for an unknown attribute name;
otherwise fill the whole backing array and set `needsUpdate`. -/
def emFillAttribute (g : Geo) (name : String) (v : EFillVal) : Option Geo :=
  match lookupA g.attrs name with
  | none => some g
  | some attr =>
    match emFillData attr.array v with
    | none => none
    | some arr' =>
      some { g with attrs := updateA g.attrs name { attr with array := arr', needsUpdate := true } }

/-- The `value` argument of `EmitterInstance.fillAttribute`
(`number | number[] | ((index) => number)`). -/
inductive IFillVal
  | scalar (v : Int)
  | vec (vs : List Int)
  | gen (f : Nat → Int)

/-- Write `vs` into `arr` at absolute offset `off` (a subarray `set`
writing through to the backing buffer; bounds were already checked
against the subarray's length). -/
def writeAt (arr : List Int) (off : Nat) (vs : List Int) : List Int :=
  arr.take off ++ vs ++ arr.drop (off + vs.length)

/-- The tiling loop of `EmitterInstance.fillAttribute` for an array value,
running on a view of the backing buffer that starts at absolute offset
`st` and has `viewLen` elements: `data.set(value, i)` bound-checks `i +
value.length` against the view's length and throws (`none`) on overflow,
else writes through at absolute offset `st + i`. -/
def viewVecLoop (st viewLen : Nat) (vs : List Int) : Nat → List Int → Nat → Option (List Int)
  | 0, _, _ => none
  | fuel + 1, arr, i =>
    if i < viewLen then
      if i + vs.length ≤ viewLen then
        viewVecLoop st viewLen vs fuel (writeAt arr (st + i) vs) (i + vs.length)
      else none
    else some arr

/-- The generator loop of `EmitterInstance.fillAttribute`:
`for (i = 0; i < data.length; i += 1) data.set([value(i)], i)` — singleton
writes at every view index, always in bounds. -/
def viewGenFill (st viewLen : Nat) (f : Nat → Int) (arr : List Int) : List Int :=
  (List.range viewLen).foldl (fun a i => a.set (st + i) (f i)) arr

/-- `data.fill(v)` on a view `[st, en)` of the backing buffer. -/
def fillRange (arr : List Int) (st en : Nat) (v : Int) : List Int :=
  arr.take st ++ List.replicate (en - st) v ++ arr.drop en

/-- `EmitterInstance.fillAttribute`: no-op if the instance has no view for
`attribute`; otherwise fill through the view.  For a per-instance (`sub`,
Proxy-wrapped) view, any access to `set`/`fill` on the view sets the
owning attribute's `needsUpdate` — so a scalar fill always sets it, while
the array/generator loops only touch `set` when the view is nonempty.  A
shared (`whole`) view is the raw backing array: no `needsUpdate` is set. -/
def instFillAttribute (s : Sys) (id : Nat) (name : String) (v : IFillVal) : Option Sys :=
  match s.insts.get? id with
  | none => some s
  | some inst =>
    match lookupA inst.attrViews name with
    | none => some s
    | some vk =>
      match lookupA s.em.geo.attrs name with
      | none => some s
      | some attr =>
        let len := attr.array.length
        let st := match vk with | .sub a _ => a | .whole => 0
        let en := match vk with | .sub _ b => b | .whole => len
        let isProxy : Bool := match vk with | .sub _ _ => true | .whole => false
        let put : List Int → Bool → Option Sys := fun arr' dirty' =>
          some { s with
                 em := { s.em with
                         geo := { s.em.geo with
                                  attrs := updateA s.em.geo.attrs name
                                    { attr with array := arr', needsUpdate := dirty' } } } }
        match v with
        | .scalar x =>
          put (fillRange attr.array st en x) (attr.needsUpdate || isProxy)
        | .vec vs =>
          match viewVecLoop st (en - st) vs (en - st + 1) attr.array 0 with
          | none => none
          | some arr' =>
            put arr' (attr.needsUpdate || (isProxy && decide (0 < en - st)))
        | .gen f =>
          put (viewGenFill st (en - st) f attr.array)
            (attr.needsUpdate || (isProxy && decide (0 < en - st)))

/-- `instance.particleAmount` looked up through the arena (0 for an index
that names no instance; only used at indices that do). -/
def getPa (insts : List InstState) (id : Nat) : Int :=
  ((insts.get? id).map (fun i => i.particleAmount)).getD 0

/-- Sum of `particleAmount` over the currently registered instances. -/
def sumRegistered (s : Sys) : Int :=
  (s.em.known.map (getPa s.insts)).sum

/-- A call against the emitter's registration interface: construct a new
`EmitterInstance` (which self-registers), re-call `instanceAdded` on an
existing handle, or call `instanceRemoved` on a handle. -/
inductive EOp
  | newInst (pa : Int)
  | addKnown (id : Nat)
  | remove (id : Nat)

/-- Apply one registration-interface call. -/
def applyOp (s : Sys) : EOp → Option Sys
  | .newInst pa => some (newInstance s pa)
  | .addKnown id => some (instanceAdded s id)
  | .remove id => instanceRemoved s id

/-- Run a sequence of registration-interface calls. -/
def runOps (s : Sys) : List EOp → Option Sys
  | [] => some s
  | op :: rest =>
    match applyOp s op with
    | none => none
    | some s' => runOps s' rest

/-- A trace is good when every requested amount is nonnegative and the
registered sum stays within `maxParticles` after every call. -/
def goodRunB (s : Sys) : List EOp → Bool
  | [] => true
  | op :: rest =>
    (match op with | .newInst pa => decide (0 ≤ pa) | _ => true) &&
    (match applyOp s op with
     | none => true
     | some s' => decide (sumRegistered s' ≤ s'.em.maxParticles) && goodRunB s' rest)

/-- Bookkeeping invariant tying `geometry.instanceCount` to the registered
set (holds for a fresh emitter and is preserved by good traces). -/
def Wf (s : Sys) : Prop :=
  s.em.geo.instanceCount = sumRegistered s ∧
  sumRegistered s ≤ s.em.maxParticles ∧
  s.em.known.Nodup ∧
  (∀ id ∈ s.em.known, id < s.insts.length) ∧
  (∀ inst ∈ s.insts, 0 ≤ inst.particleAmount)

/-- The view `calculateAttributeSubarrays` records for an attribute the
instance has not seen before (read off from `calcStep`). -/
def freshView (maxP T pa : Int) (attr : BAttr) : ViewKind :=
  if (attr.count : Int) ≥ maxP then
    let startI : Int := max 0 (T * attr.itemSize)
    let endI : Int := min (attr.array.length : Int) (startI + pa * attr.itemSize)
    let s := relIndex attr.array.length startI
    let e := relIndex attr.array.length endI
    .sub s (max e s)
  else .whole

/-- The base offset recorded in the same situation. -/
def freshIndex (maxP T : Int) (attr : BAttr) : Option Nat :=
  if (attr.count : Int) ≥ maxP then some (max 0 (T * attr.itemSize)).toNat else none

/-- §8 scenario buffer: `PerInstance` attribute `pos`, item width 3,
capacity 10 items. -/
def c1Attr : BAttr :=
  { array := List.replicate 30 0, itemSize := 3, needsUpdate := false, isInstanced := true }

/-- §8 scenario: register X (4 items), fill X's `pos` with `[1,1,1]`,
register Y (3 items, base offset 12), fill Y's `pos` with `[2,2,2]`,
then unregister X. -/
def c1Run : Option Sys :=
  (instFillAttribute (newInstance (mkEmitter 10 [("pos", c1Attr)]) 4) 0 "pos" (.vec [1, 1, 1])).bind
    (fun s =>
      (instFillAttribute (newInstance s 3) 1 "pos" (.vec [2, 2, 2])).bind
        (fun s' => instanceRemoved s' 0))

/-- Saturation trace for the active-count invariant: `maxParticles = 10`,
register 8 then 5 (count saturates at 10), then unregister the first. -/
def c2CexRun : Option Sys :=
  instanceRemoved (newInstance (newInstance (mkEmitter 10 []) 8) 5) 0

/-- A lone length-5 single-component attribute. -/
def c3g5 : Geo :=
  { attrs := [("a", { array := List.replicate 5 0, itemSize := 1, needsUpdate := false, isInstanced := true })]
    instanceCount := 0 }

/-- A lone length-6 single-component attribute. -/
def c3g6 : Geo :=
  { attrs := [("a", { array := List.replicate 6 0, itemSize := 1, needsUpdate := false, isInstanced := true })]
    instanceCount := 0 }

/-- Emitter with one shared attribute (`count = 4 < maxParticles = 10`)
and one registered instance; the instance got the raw whole-buffer view. -/
def c4Sys : Sys :=
  newInstance
    (mkEmitter 10 [("u", { array := List.replicate 4 0, itemSize := 1, needsUpdate := false, isInstanced := false })])
    2

/-- A small emitter with one registered instance (2 particles). -/
def c7Sys : Sys := newInstance (mkEmitter 10 []) 2

/-- Emitter with `maxParticles = 2` and a per-instance attribute `p`
(item width 3, 12 scalar slots, so `count = 4 ≥ 2`). -/
def c5Sys : Sys :=
  mkEmitter 2 [("p", { array := List.replicate 12 0, itemSize := 3, needsUpdate := false, isInstanced := true })]

/-- Emitter with `maxParticles = 10` and an attribute `u` whose
`count = 4 < 10`, declared as a plain (non-instanced) attribute. -/
def c10Sys : Sys :=
  mkEmitter 10 [("u", { array := List.replicate 4 0, itemSize := 1, needsUpdate := false, isInstanced := false })]

/-! ## Claim theorems (with supporting lemmas) -/

theorem lookupA_updateA_self {α : Type} (l : List (String × α)) (k : String) (v : α) :
    lookupA (updateA l k v) k = some v := by
  induction l with
  | nil => simp [updateA, lookupA]
  | cons p rest ih =>
    by_cases h : p.1 = k
    · simp [updateA, lookupA, h]
    · simp [updateA, lookupA, h, ih]

theorem lookupA_updateA_ne {α : Type} (l : List (String × α)) (k k' : String) (v : α)
    (h : k ≠ k') : lookupA (updateA l k v) k' = lookupA l k' := by
  induction l with
  | nil => simp [updateA, lookupA, h]
  | cons p rest ih =>
    by_cases hp : p.1 = k
    · simp [updateA, lookupA, hp, h, lookupA]
    · simp only [updateA, hp, if_false, lookupA]
      by_cases hp' : p.1 = k' <;> simp [hp', ih]


/-- C1: running the spec's §8 scenario (register X with 4 items, fill X's
`pos` with 1s, register Y with 3 items at base offset 12, fill Y's `pos`
with 2s, unregister X), the code leaves Y's recorded `attributeIndices`
for `pos` at 12 — it is never recomputed to 0 — and leaves Y's view
window `[12, 21)` reading zeros, even though Y's data was shifted to
offsets `[0, 9)` of the buffer.  This contradicts the claim (and the
spec's mandatory `baseOffset` recomputation). -/
theorem c1_no_baseOffset_recompute :
    (c1Run.bind fun s =>
        (s.insts.get? 1).map fun inst =>
          (lookupA inst.attributeIndices "pos",
           lookupA inst.attrViews "pos",
           (lookupA s.em.geo.attrs "pos").map fun a =>
             (a.array.take 9, (a.array.drop 12).take 9))) =
      some (some 12, some (ViewKind.sub 12 21),
            some (List.replicate 9 2, List.replicate 9 0)) ∧
    (some 12 : Option Nat) ≠ some 0 := by
  constructor
  · rfl
  · decide

/-- C2 counterexample: with `maxParticles = 10`, register 8, register 5
(count saturates at 10), unregister the first: the code's count is `2`,
while `min(maxParticles, Σ itemCount) = min(10, 5) = 5`. -/
theorem c2_count_counterexample :
    (c2CexRun.map fun s =>
        (s.em.geo.instanceCount, min s.em.maxParticles (sumRegistered s))) =
      some (2, 5) ∧ (2 : Int) ≠ 5 := by
  constructor
  · rfl
  · decide

/-- C3 counterexample: filling a length-5 view with the length-2 vector
`[1,2]` reaches offset 4, where `TypedArray.set` raises a `RangeError`
(modelled as `none`): the fill aborts instead of partially tiling. -/
theorem c3_partial_tile_aborts :
    emFillAttribute c3g5 "a" (.vec [1, 2]) = none ∧ ¬ (2 ∣ 5) := by
  constructor
  · rfl
  · decide

/-- C4 counterexample: `u` has `count = 4 < maxParticles = 10`, so the
instance's view is the raw whole buffer; `EmitterInstance.fillAttribute`
mutates it (all zeros become 7) yet `needsUpdate` stays `false`. -/
theorem c4_shared_fill_not_dirty :
    (instFillAttribute c4Sys 0 "u" (.scalar 7)).bind
        (fun s => lookupA s.em.geo.attrs "u") =
      some { array := [7, 7, 7, 7], itemSize := 1, needsUpdate := false, isInstanced := false } ∧
    lookupA c4Sys.em.geo.attrs "u" =
      some { array := [0, 0, 0, 0], itemSize := 1, needsUpdate := false, isInstanced := false } := by
  constructor
  · rfl
  · rfl

/-- C6 counterexample: the `particleAmount` setter is a raw passthrough;
`set(-5)` stores `-5`, which is outside `[0, maxParticles]`. -/
theorem c6_setter_not_clamped :
    emParticleAmountGet (emParticleAmountSet (mkEmitter 10 []) (-5)) = -5 ∧
    ¬ (0 ≤ (-5 : Int)) := by
  constructor
  · rfl
  · decide

/-- C6 amended: the setter stores `n` unclamped (for every `n`, also
outside `[0, maxParticles]`) and the getter returns the stored value; the
setter touches nothing else. -/
theorem c6_set_get_passthrough (s : Sys) (n : Int) :
    emParticleAmountGet (emParticleAmountSet s n) = n ∧
    (emParticleAmountSet s n).em.geo.attrs = s.em.geo.attrs ∧
    (emParticleAmountSet s n).em.known = s.em.known ∧
    (emParticleAmountSet s n).em.maxParticles = s.em.maxParticles := by
  exact ⟨rfl, rfl, rfl, rfl⟩

/-- C7: `instanceAdded` on an already-registered handle is a complete
no-op — the whole emitter state (membership set, `instanceCount`,
buffers) is untouched. -/
theorem c7_register_idempotent (s : Sys) (id : Nat) (h : id ∈ s.em.known) :
    instanceAdded s id = s := by
  unfold instanceAdded
  rw [if_pos h]

/-- Witness for C7 at a concrete state: `c7Sys` has instance 0
registered; re-adding it changes nothing. -/
theorem c7_register_idempotent_witness :
    0 ∈ c7Sys.em.known ∧ instanceAdded c7Sys 0 = c7Sys :=
  ⟨by decide, c7_register_idempotent c7Sys 0 (by decide)⟩

/-- C8: `instanceRemoved` on a non-member handle is a complete no-op:
the state (count, every buffer, every dirty flag, membership) is returned
unchanged and no error is raised. -/
theorem c8_unregister_nonmember_noop (s : Sys) (id : Nat) (h : id ∉ s.em.known) :
    instanceRemoved s id = some s := by
  unfold instanceRemoved
  rw [if_neg h]

/-- Witness for C8 at a concrete state: instance 5 was never registered
in `c7Sys` (and 0 already removed twice behaves the same way). -/
theorem c8_unregister_nonmember_noop_witness :
    5 ∉ c7Sys.em.known ∧ instanceRemoved c7Sys 5 = some c7Sys :=
  ⟨by decide, c8_unregister_nonmember_noop c7Sys 5 (by decide)⟩

/-- C9: `Emitter.update` sets the stored timestamp to `now`; a tick with
no previous timestamp (the zero sentinel, i.e. the first observed tick or
a reset) adds zero to the `time` uniform, and a tick with previous
timestamp `p ≠ 0` adds exactly `(now - p) / 1000` (milliseconds to
seconds). -/
theorem c9_tick_delta (s : Sys) (now : ℚ) :
    (emUpdate s now).em.timestamp = now ∧
    (s.em.timestamp = 0 → (emUpdate s now).em.time = s.em.time) ∧
    (s.em.timestamp ≠ 0 →
      (emUpdate s now).em.time = s.em.time + (now - s.em.timestamp) / 1000) := by
  refine ⟨rfl, ?_, ?_⟩
  · intro h
    simp [emUpdate, jsAnd, jsOr, h]
  · intro h
    show s.em.time + jsOr (jsAnd s.em.timestamp ((now - s.em.timestamp) / 1000)) 0 = _
    rw [jsAnd, if_neg h, jsOr]
    by_cases hd : (now - s.em.timestamp) / 1000 = 0
    · rw [if_pos hd, hd]
    · rw [if_neg hd]

/-- Witness for C9: tick at host time 1000 (first tick, timestamp was the
zero sentinel), then at 3000: the second tick adds `(3000 - 1000) / 1000`
seconds. -/
theorem c9_tick_delta_witness :
    (emUpdate (mkEmitter 10 []) 1000).em.timestamp ≠ 0 ∧
    (emUpdate (emUpdate (mkEmitter 10 []) 1000) 3000).em.time =
      (emUpdate (mkEmitter 10 []) 1000).em.time +
        (3000 - (emUpdate (mkEmitter 10 []) 1000).em.timestamp) / 1000 :=
  ⟨by norm_num [emUpdate, mkEmitter, jsAnd, jsOr],
   (c9_tick_delta (emUpdate (mkEmitter 10 []) 1000) 3000).2.2
     (by norm_num [emUpdate, mkEmitter, jsAnd, jsOr])⟩

/-- C4 amended: (1) every successful `Emitter.fillAttribute` on a present
attribute sets its `needsUpdate`; (2) every successful
`EmitterInstance.fillAttribute` through a per-instance (Proxy-wrapped
subarray) view of nonempty range sets the owning attribute's
`needsUpdate`; but (3) a successful `EmitterInstance.fillAttribute`
through a shared (whole-buffer) view mutates the buffer with the
`needsUpdate` flag left exactly as it was. -/
theorem c4_dirty_discipline :
    (∀ (g : Geo) (name : String) (attr : BAttr) (v : EFillVal) (g' : Geo),
        lookupA g.attrs name = some attr →
        emFillAttribute g name v = some g' →
        ∃ arr', lookupA g'.attrs name = some { attr with array := arr', needsUpdate := true }) ∧
    (∀ (s : Sys) (id : Nat) (name : String) (inst : InstState) (a b : Nat)
        (attr : BAttr) (v : IFillVal) (s' : Sys),
        s.insts.get? id = some inst →
        lookupA inst.attrViews name = some (.sub a b) →
        lookupA s.em.geo.attrs name = some attr →
        a < b →
        instFillAttribute s id name v = some s' →
        ∃ arr', lookupA s'.em.geo.attrs name = some { attr with array := arr', needsUpdate := true }) ∧
    (∀ (s : Sys) (id : Nat) (name : String) (inst : InstState)
        (attr : BAttr) (v : IFillVal) (s' : Sys),
        s.insts.get? id = some inst →
        lookupA inst.attrViews name = some .whole →
        lookupA s.em.geo.attrs name = some attr →
        instFillAttribute s id name v = some s' →
        ∃ arr', lookupA s'.em.geo.attrs name =
          some { attr with array := arr', needsUpdate := attr.needsUpdate }) := by
  refine ⟨?_, ?_, ?_⟩
  · intro g name attr v g' hl hf
    unfold emFillAttribute at hf
    rw [hl] at hf
    simp only at hf
    cases hv : emFillData attr.array v with
    | none => rw [hv] at hf; simp at hf
    | some arr' =>
      rw [hv] at hf
      simp only at hf
      cases hf
      exact ⟨arr', lookupA_updateA_self g.attrs name _⟩
  · intro s id name inst a b attr v s' hins hview hgeo hab hf
    have hba : 0 < b - a := by omega
    cases v with
    | scalar x =>
      simp only [instFillAttribute, hins, hview, hgeo] at hf
      cases hf
      refine ⟨fillRange attr.array a b x, ?_⟩
      simpa [Bool.or_true] using lookupA_updateA_self s.em.geo.attrs name _
    | vec vs =>
      simp only [instFillAttribute, hins, hview, hgeo] at hf
      cases hloop : viewVecLoop a (b - a) vs (b - a + 1) attr.array 0 with
      | none => rw [hloop] at hf; simp at hf
      | some arr' =>
        rw [hloop] at hf
        simp only at hf
        cases hf
        refine ⟨arr', ?_⟩
        simpa [decide_eq_true hab, Bool.or_true] using lookupA_updateA_self s.em.geo.attrs name _
    | gen f =>
      simp only [instFillAttribute, hins, hview, hgeo] at hf
      cases hf
      refine ⟨viewGenFill a (b - a) f attr.array, ?_⟩
      simpa [decide_eq_true hab, Bool.or_true] using lookupA_updateA_self s.em.geo.attrs name _
  · intro s id name inst attr v s' hins hview hgeo hf
    cases v with
    | scalar x =>
      simp only [instFillAttribute, hins, hview, hgeo] at hf
      cases hf
      refine ⟨fillRange attr.array 0 attr.array.length x, ?_⟩
      simpa [Bool.or_false] using lookupA_updateA_self s.em.geo.attrs name _
    | vec vs =>
      simp only [instFillAttribute, hins, hview, hgeo] at hf
      cases hloop : viewVecLoop 0 (attr.array.length - 0) vs (attr.array.length - 0 + 1) attr.array 0 with
      | none => rw [hloop] at hf; simp at hf
      | some arr' =>
        rw [hloop] at hf
        simp only at hf
        cases hf
        refine ⟨arr', ?_⟩
        simpa [Bool.false_and, Bool.or_false] using lookupA_updateA_self s.em.geo.attrs name _
    | gen f =>
      simp only [instFillAttribute, hins, hview, hgeo] at hf
      cases hf
      refine ⟨viewGenFill 0 (attr.array.length - 0) f attr.array, ?_⟩
      simpa [Bool.false_and, Bool.or_false] using lookupA_updateA_self s.em.geo.attrs name _

/-- Witness for C4 amended, exercising part (3) at a concrete input: the
shared view fill of `c4Sys` succeeds and the flag stays `false` while the
buffer contents change. -/
theorem c4_dirty_discipline_witness :
    c4Sys.insts.get? 0 = some { particleAmount := 2, attributeIndices := [], attrViews := [("u", ViewKind.whole)] } ∧
    ∃ arr', (instFillAttribute c4Sys 0 "u" (.scalar 7)).bind (fun s => lookupA s.em.geo.attrs "u") =
      some { array := arr', itemSize := 1, needsUpdate := false, isInstanced := false } := by
  constructor
  · rfl
  · obtain ⟨arr', h⟩ := c4_dirty_discipline.2.2 c4Sys 0 "u"
      { particleAmount := 2, attributeIndices := [], attrViews := [("u", ViewKind.whole)] }
      { array := [0, 0, 0, 0], itemSize := 1, needsUpdate := false, isInstanced := false }
      (.scalar 7) _ rfl rfl rfl rfl
    exact ⟨arr', by rw [show (instFillAttribute c4Sys 0 "u" (.scalar 7)) = some _ from rfl]; simpa using h⟩

/-- The tiling loop of `Emitter.fillAttribute`, started at offset
`pre.length` into `pre ++ rest` with `rest` an exact multiple of the
vector: it terminates without error and tiles the vector over `rest`. -/
theorem vecLoopE_tiles (vs : List Int) (hvs : 0 < vs.length) :
    ∀ (k : Nat) (pre rest : List Int) (fuel : Nat),
      rest.length = k * vs.length → k < fuel →
      vecLoopE vs fuel (pre ++ rest) pre.length =
        some (pre ++ (List.replicate k vs).flatten) := by
  intro k
  induction k with
  | zero =>
    intro pre rest fuel hlen hfuel
    obtain rfl : rest = [] := List.eq_nil_of_length_eq_zero (by simpa using hlen)
    cases fuel with
    | zero => omega
    | succ f => simp [vecLoopE]
  | succ k ih =>
    intro pre rest fuel hlen hfuel
    have hlen' : rest.length = k * vs.length + vs.length := by rw [hlen, Nat.succ_mul]
    cases fuel with
    | zero => omega
    | succ f =>
      have hlt : pre.length < (pre ++ rest).length := by
        rw [List.length_append]; omega
      have hset : jsSet (pre ++ rest) vs pre.length =
          some (pre ++ (vs ++ rest.drop vs.length)) := by
        unfold jsSet
        rw [if_pos (by rw [List.length_append]; omega), List.take_left, List.drop_append,
          List.append_assoc]
      rw [vecLoopE, if_pos hlt, hset]
      show vecLoopE vs f (pre ++ (vs ++ rest.drop vs.length)) (pre.length + vs.length) = _
      have hassoc : pre ++ (vs ++ rest.drop vs.length) = (pre ++ vs) ++ rest.drop vs.length :=
        (List.append_assoc pre vs (rest.drop vs.length)).symm
      have harg : pre.length + vs.length = (pre ++ vs).length := (List.length_append pre vs).symm
      rw [hassoc, harg, ih (pre ++ vs) (rest.drop vs.length) f (by rw [List.length_drop]; omega) (by omega)]
      simp [List.append_assoc, List.replicate_succ]

/-- C3 amended: when the vector's length evenly divides the view's
length (and the vector is nonempty), `Emitter.fillAttribute` succeeds and
tiles the vector exactly `L / |vs|` times across the buffer, never
writing out of bounds; when it does not divide, the final partial tile
makes `TypedArray.set` raise a `RangeError` and the fill aborts
(see the counterexample). -/
theorem c3_divisible_tiles (g : Geo) (name : String) (attr : BAttr) (vs : List Int)
    (hl : lookupA g.attrs name = some attr) (hvs : 0 < vs.length)
    (hdvd : vs.length ∣ attr.array.length) :
    emFillAttribute g name (.vec vs) =
      some { g with attrs := updateA g.attrs name { attr with array := (List.replicate (attr.array.length / vs.length) vs).flatten, needsUpdate := true } } := by
  obtain ⟨k, hk⟩ := hdvd
  have hkdiv : attr.array.length / vs.length = k := by
    rw [hk, Nat.mul_div_cancel_left k hvs]
  have hloop := vecLoopE_tiles vs hvs k [] attr.array (attr.array.length + 1)
    (by rw [hk, Nat.mul_comm]) (by have := Nat.le_mul_of_pos_left k hvs; omega)
  simp only [List.nil_append, List.length_nil] at hloop
  unfold emFillAttribute
  rw [hl]
  simp only
  dsimp only [emFillData]
  rw [hloop]
  simp only [hkdiv]

/-- Witness for C3 amended at a concrete input: `[1,2]` across a
length-6 buffer tiles three times. -/
theorem c3_divisible_tiles_witness :
    (0 : Nat) < [1, 2].length ∧ ([1, 2] : List Int).length ∣ (6 : Nat) ∧
    emFillAttribute c3g6 "a" (.vec [1, 2]) =
      some { attrs := [("a", { array := [1, 2, 1, 2, 1, 2], itemSize := 1,
                               needsUpdate := true, isInstanced := true })],
             instanceCount := 0 } := by
  refine ⟨by decide, by decide, ?_⟩
  rw [c3_divisible_tiles c3g6 "a"
    { array := List.replicate 6 0, itemSize := 1, needsUpdate := false, isInstanced := true }
    [1, 2] (by rfl) (by decide) (by decide)]
  rfl

theorem calcStep_pa (maxP T : Int) (ist : InstState) (name : String) (attr : BAttr) :
    (calcStep maxP T ist name attr).particleAmount = ist.particleAmount := by
  unfold calcStep
  split
  · rfl
  · split <;> rfl

theorem calcSubarrays_pa (maxP T : Int) (l : List (String × BAttr)) (ist : InstState) :
    (calcSubarrays maxP T l ist).particleAmount = ist.particleAmount := by
  induction l generalizing ist with
  | nil => rfl
  | cons p rest ih =>
    show (calcSubarrays maxP T rest (calcStep maxP T ist p.1 p.2)).particleAmount = _
    rw [ih, calcStep_pa]

theorem shiftStep_count (g : Geo) (inst : InstState) (name : String) (vk : ViewKind)
    (g' : Geo) (h : shiftStep g inst name vk = some g') :
    g'.instanceCount = g.instanceCount := by
  unfold shiftStep at h
  split at h
  · cases h; rfl
  · cases vk with
    | sub a b =>
      dsimp only at h
      split at h
      · exact Option.noConfusion h
      · cases h; rfl
    | whole =>
      dsimp only at h
      split at h
      · exact Option.noConfusion h
      · cases h; rfl

theorem shiftAll_count (inst : InstState) :
    ∀ (l : List (String × ViewKind)) (g g' : Geo), shiftAll g inst l = some g' →
      g'.instanceCount = g.instanceCount := by
  intro l
  induction l with
  | nil => intro g g' h; cases h; rfl
  | cons p rest ih =>
    intro g g' h
    unfold shiftAll at h
    split at h
    · exact Option.noConfusion h
    · next g1 hs => rw [ih g1 g' h, shiftStep_count g inst p.1 p.2 g1 hs]

theorem newInstance_eq (s : Sys) (pa : Int) (hnk : s.insts.length ∉ s.em.known) :
    newInstance s pa =
      { em := { s.em with
                known := s.em.known ++ [s.insts.length]
                geo := { s.em.geo with
                         instanceCount := min s.em.maxParticles (s.em.geo.instanceCount + pa) } }
        insts := s.insts ++
          [calcSubarrays s.em.maxParticles s.em.geo.instanceCount s.em.geo.attrs
            { particleAmount := pa, attributeIndices := [], attrViews := [] }] } := by
  unfold newInstance instanceAdded
  dsimp only
  rw [if_neg hnk, List.get?_concat_length]
  simp [calcSubarrays_pa]

theorem getPa_append (insts : List InstState) (x : InstState) (id : Nat)
    (h : id < insts.length) : getPa (insts ++ [x]) id = getPa insts id := by
  unfold getPa
  rw [List.get?_append h]

theorem getPa_concat (insts : List InstState) (x : InstState) :
    getPa (insts ++ [x]) insts.length = x.particleAmount := by
  unfold getPa
  rw [List.get?_concat_length]
  rfl

theorem sum_map_erase (f : Nat → Int) :
    ∀ (l : List Nat), l.Nodup → ∀ id ∈ l,
      ((l.erase id).map f).sum = (l.map f).sum - f id := by
  intro l
  induction l with
  | nil => intro _ id hid; cases hid
  | cons x xs ih =>
    intro hnd id hid
    by_cases hx : x = id
    · subst hx
      rw [List.erase_cons_head]
      simp
    · have hid' : id ∈ xs := by
        cases hid with
        | head => exact absurd rfl hx
        | tail _ h => exact h
      rw [List.erase_cons_tail (by simp [hx])]
      simp only [List.map_cons, List.sum_cons, ih hnd.of_cons id hid']
      ring

theorem single_le_sum_mem (f : Nat → Int) (l : List Nat)
    (h0 : ∀ x ∈ l, 0 ≤ f x) (id : Nat) (hid : id ∈ l) : f id ≤ (l.map f).sum :=
  List.single_le_sum (by intro y hy; obtain ⟨x, hx, rfl⟩ := List.mem_map.mp hy; exact h0 x hx)
    (f id) (List.mem_map_of_mem f hid)

theorem sum_getPa_append (insts : List InstState) (x : InstState) (known : List Nat)
    (hb : ∀ id ∈ known, id < insts.length) :
    (known.map (getPa (insts ++ [x]))).sum = (known.map (getPa insts)).sum := by
  have h : known.map (getPa (insts ++ [x])) = known.map (getPa insts) :=
    List.map_congr_left (fun id hid => getPa_append insts x id (hb id hid))
  rw [h]

theorem sumRegistered_newInstance (s : Sys) (pa : Int) (hnk : s.insts.length ∉ s.em.known)
    (hb : ∀ id ∈ s.em.known, id < s.insts.length) :
    sumRegistered (newInstance s pa) = sumRegistered s + pa := by
  rw [newInstance_eq s pa hnk]
  unfold sumRegistered
  dsimp only
  rw [List.map_append, List.sum_append, sum_getPa_append s.insts _ s.em.known hb]
  simp [getPa_concat, calcSubarrays_pa]

theorem instanceAdded_max (s : Sys) (id : Nat) :
    (instanceAdded s id).em.maxParticles = s.em.maxParticles := by
  unfold instanceAdded
  split
  · rfl
  · split <;> rfl

theorem newInstance_max (s : Sys) (pa : Int) :
    (newInstance s pa).em.maxParticles = s.em.maxParticles := by
  unfold newInstance
  dsimp only
  rw [instanceAdded_max]

theorem getPa_nonneg (insts : List InstState)
    (hpos : ∀ inst ∈ insts, 0 ≤ inst.particleAmount) (x : Nat) : 0 ≤ getPa insts x := by
  unfold getPa
  cases hg : insts.get? x with
  | none => simp
  | some i => simpa using hpos i (List.get?_mem hg)

theorem wf_newInstance (s : Sys) (pa : Int) (hwf : Wf s) (hpa : 0 ≤ pa)
    (hb : sumRegistered s + pa ≤ s.em.maxParticles) : Wf (newInstance s pa) := by
  obtain ⟨hcnt, hsum, hnd, hlt, hpos⟩ := hwf
  have hnk : s.insts.length ∉ s.em.known := fun h => absurd (hlt _ h) (by omega)
  have hsig : sumRegistered (newInstance s pa) = sumRegistered s + pa :=
    sumRegistered_newInstance s pa hnk hlt
  refine ⟨?_, ?_, ?_, ?_, ?_⟩
  · rw [hsig, newInstance_eq s pa hnk]
    dsimp only
    rw [hcnt]
    exact min_eq_right (by omega)
  · rw [hsig, newInstance_max]
    exact hb
  · rw [newInstance_eq s pa hnk]
    dsimp only
    rw [List.nodup_append]
    refine ⟨hnd, List.nodup_singleton _, fun a ha hb' => ?_⟩
    obtain rfl := List.mem_singleton.mp hb'
    exact hnk ha
  · rw [newInstance_eq s pa hnk]
    dsimp only
    intro id hid
    rw [List.length_append]
    rcases List.mem_append.mp hid with h | h
    · have := hlt id h; omega
    · obtain rfl := List.mem_singleton.mp h; simp
  · rw [newInstance_eq s pa hnk]
    dsimp only
    intro inst hinst
    rcases List.mem_append.mp hinst with h | h
    · exact hpos inst h
    · obtain rfl := List.mem_singleton.mp h
      rw [calcSubarrays_pa]
      exact hpa

theorem instanceAdded_eq (s : Sys) (id : Nat) (inst : InstState) (hnk : id ∉ s.em.known)
    (hg : s.insts.get? id = some inst) :
    instanceAdded s id =
      { s with em := { s.em with
          known := s.em.known ++ [id]
          geo := { s.em.geo with
                   instanceCount := min s.em.maxParticles
                     (s.em.geo.instanceCount + inst.particleAmount) } } } := by
  unfold instanceAdded
  rw [if_neg hnk, hg]

theorem wf_instanceAdded (s : Sys) (id : Nat) (hwf : Wf s)
    (hb : sumRegistered (instanceAdded s id) ≤ s.em.maxParticles) : Wf (instanceAdded s id) := by
  obtain ⟨hcnt, hsum, hnd, hlt, hpos⟩ := hwf
  by_cases hm : id ∈ s.em.known
  · unfold instanceAdded
    rw [if_pos hm]
    exact ⟨hcnt, hsum, hnd, hlt, hpos⟩
  · cases hg : s.insts.get? id with
    | none =>
      unfold instanceAdded
      rw [if_neg hm, hg]
      exact ⟨hcnt, hsum, hnd, hlt, hpos⟩
    | some inst =>
      have hid_lt : id < s.insts.length := by
        by_contra hge
        rw [List.get?_eq_none.mpr (by omega)] at hg
        exact Option.noConfusion hg
      have hgetpa : getPa s.insts id = inst.particleAmount := by
        unfold getPa; rw [hg]; rfl
      have hsig : sumRegistered (instanceAdded s id) = sumRegistered s + inst.particleAmount := by
        rw [instanceAdded_eq s id inst hm hg]
        unfold sumRegistered
        dsimp only
        rw [List.map_append, List.sum_append]
        simp [hgetpa]
      rw [hsig] at hb
      refine ⟨?_, ?_, ?_, ?_, ?_⟩
      · rw [hsig, instanceAdded_eq s id inst hm hg]
        dsimp only
        rw [hcnt]
        exact min_eq_right (by omega)
      · rw [hsig, instanceAdded_max]
        exact hb
      · rw [instanceAdded_eq s id inst hm hg]
        dsimp only
        rw [List.nodup_append]
        refine ⟨hnd, List.nodup_singleton _, fun a ha hb' => ?_⟩
        obtain rfl := List.mem_singleton.mp hb'
        exact hm ha
      · rw [instanceAdded_eq s id inst hm hg]
        dsimp only
        intro i hi
        rcases List.mem_append.mp hi with h | h
        · exact hlt i h
        · obtain rfl := List.mem_singleton.mp h; exact hid_lt
      · rw [instanceAdded_eq s id inst hm hg]
        dsimp only
        exact hpos

theorem instanceRemoved_parts (s : Sys) (id : Nat) (s' : Sys) (hm : id ∈ s.em.known)
    (h : instanceRemoved s id = some s') :
    ∃ inst, s.insts.get? id = some inst ∧
      s'.insts = s.insts ∧
      s'.em.known = s.em.known.erase id ∧
      s'.em.maxParticles = s.em.maxParticles ∧
      s'.em.geo.instanceCount = max 0 (s.em.geo.instanceCount - inst.particleAmount) := by
  unfold instanceRemoved at h
  rw [if_pos hm] at h
  split at h
  · exact Option.noConfusion h
  · next inst hg =>
    dsimp only at h
    split at h
    · exact Option.noConfusion h
    · next g2 hshift =>
      cases h
      exact ⟨inst, hg, rfl, rfl, rfl, shiftAll_count inst _ _ g2 hshift⟩

theorem wf_instanceRemoved (s : Sys) (id : Nat) (s' : Sys) (hwf : Wf s)
    (h : instanceRemoved s id = some s') : Wf s' := by
  obtain ⟨hcnt, hsum, hnd, hlt, hpos⟩ := hwf
  by_cases hm : id ∈ s.em.known
  · obtain ⟨inst, hg, hinsts, hknown, hmax, hcount⟩ := instanceRemoved_parts s id s' hm h
    have hmem : inst ∈ s.insts := List.get?_mem hg
    have hpa0 : 0 ≤ inst.particleAmount := hpos inst hmem
    have hgetpa : getPa s.insts id = inst.particleAmount := by
      unfold getPa; rw [hg]; rfl
    have hsig : sumRegistered s' = sumRegistered s - inst.particleAmount := by
      unfold sumRegistered
      rw [hknown, hinsts, sum_map_erase (getPa s.insts) s.em.known hnd id hm, hgetpa]
    have hle : inst.particleAmount ≤ sumRegistered s := by
      rw [← hgetpa]
      exact single_le_sum_mem (getPa s.insts) s.em.known
        (fun x _ => getPa_nonneg s.insts hpos x) id hm
    refine ⟨?_, ?_, ?_, ?_, ?_⟩
    · rw [hsig, hcount, hcnt]
      exact max_eq_right (by omega)
    · rw [hsig, hmax]
      omega
    · rw [hknown]
      exact hnd.erase id
    · intro i hi
      rw [hinsts]
      exact hlt i (List.mem_of_mem_erase (hknown ▸ hi))
    · rw [hinsts]
      exact hpos
  · unfold instanceRemoved at h
    rw [if_neg hm] at h
    cases h
    exact ⟨hcnt, hsum, hnd, hlt, hpos⟩

theorem wf_runOps :
    ∀ (ops : List EOp) (s s' : Sys), Wf s → goodRunB s ops = true →
      runOps s ops = some s' → Wf s' := by
  intro ops
  induction ops with
  | nil =>
    intro s s' hwf _ hr
    cases hr
    exact hwf
  | cons op rest ih =>
    intro s s' hwf hg hr
    unfold runOps at hr
    unfold goodRunB at hg
    cases hap : applyOp s op with
    | none => rw [hap] at hr; exact Option.noConfusion hr
    | some s1 =>
      rw [hap] at hr hg
      simp only at hr
      obtain ⟨hg1, hg2⟩ := Bool.and_eq_true_iff.mp hg
      obtain ⟨hb1, hb2⟩ := Bool.and_eq_true_iff.mp hg2
      have hb1' : sumRegistered s1 ≤ s1.em.maxParticles := of_decide_eq_true hb1
      have hwf1 : Wf s1 := by
        cases op with
        | newInst pa =>
          obtain rfl : newInstance s pa = s1 := Option.some.inj hap
          have hpa : 0 ≤ pa := of_decide_eq_true hg1
          have hnk : s.insts.length ∉ s.em.known :=
            fun hmem => absurd (hwf.2.2.2.1 _ hmem) (by omega)
          rw [sumRegistered_newInstance s pa hnk hwf.2.2.2.1, newInstance_max] at hb1'
          exact wf_newInstance s pa hwf hpa hb1'
        | addKnown i =>
          obtain rfl : instanceAdded s i = s1 := Option.some.inj hap
          rw [instanceAdded_max] at hb1'
          exact wf_instanceAdded s i hwf hb1'
        | remove i =>
          exact wf_instanceRemoved s i s1 hwf hap
      exact ih s1 s' hwf1 hb2 hr

/-- C2 amended: the spec's invariant
`activeItemCount = min(maxItems, Σ itemCount)` holds after every
successful call of a trace in which all registered amounts are
nonnegative and the registered sum never exceeds `maxParticles` (the
`goodRunB` condition).  Without that restriction it fails: once the count
saturates, `instanceRemoved` subtracts the full `particleAmount`, leaving
the count below `min(maxItems, Σ)` (see the counterexample). -/
theorem c2_active_count_invariant (maxP : Int) (attrsL : List (String × BAttr))
    (hmax : 0 ≤ maxP) (ops : List EOp) (s' : Sys)
    (hg : goodRunB (mkEmitter maxP attrsL) ops = true)
    (hr : runOps (mkEmitter maxP attrsL) ops = some s') :
    s'.em.geo.instanceCount = min s'.em.maxParticles (sumRegistered s') := by
  have hwf0 : Wf (mkEmitter maxP attrsL) := by
    refine ⟨rfl, ?_, List.nodup_nil, ?_, ?_⟩
    · simpa [sumRegistered, mkEmitter, getPa] using hmax
    · intro i hi; cases hi
    · intro inst hinst; cases hinst
  have hwf' := wf_runOps ops (mkEmitter maxP attrsL) s' hwf0 hg hr
  rw [hwf'.1, min_eq_right hwf'.2.1]

/-- Witness for C2 amended: `maxParticles = 10`, register 3, register 4,
unregister the first — a good (never-saturating) trace; the final count
equals `min(10, Σ) = 4`. -/
theorem c2_active_count_invariant_witness :
    (0 : Int) ≤ 10 ∧
    goodRunB (mkEmitter 10 []) [EOp.newInst 3, EOp.newInst 4, EOp.remove 0] = true ∧
    ∃ s', runOps (mkEmitter 10 []) [EOp.newInst 3, EOp.newInst 4, EOp.remove 0] = some s' ∧
      s'.em.geo.instanceCount = min s'.em.maxParticles (sumRegistered s') := by
  obtain ⟨s', hr⟩ : ∃ s',
      runOps (mkEmitter 10 []) [EOp.newInst 3, EOp.newInst 4, EOp.remove 0] = some s' :=
    ⟨_, rfl⟩
  exact ⟨by decide, by decide, s', hr,
    c2_active_count_invariant 10 [] (by decide) _ s' (by decide) hr⟩

theorem calcStep_views_ne (maxP T : Int) (ist : InstState) (name k : String) (attr : BAttr)
    (h : name ≠ k) :
    lookupA (calcStep maxP T ist name attr).attrViews k = lookupA ist.attrViews k ∧
    lookupA (calcStep maxP T ist name attr).attributeIndices k =
      lookupA ist.attributeIndices k := by
  unfold calcStep
  split
  · exact ⟨lookupA_updateA_ne _ _ _ _ h, lookupA_updateA_ne _ _ _ _ h⟩
  · split
    · exact ⟨lookupA_updateA_ne _ _ _ _ h, rfl⟩
    · exact ⟨rfl, rfl⟩

theorem calcSubarrays_notin (maxP T : Int) :
    ∀ (l : List (String × BAttr)) (ist : InstState) (k : String),
      (∀ p ∈ l, p.1 ≠ k) →
      lookupA (calcSubarrays maxP T l ist).attrViews k = lookupA ist.attrViews k ∧
      lookupA (calcSubarrays maxP T l ist).attributeIndices k =
        lookupA ist.attributeIndices k := by
  intro l
  induction l with
  | nil => exact fun ist k _ => ⟨rfl, rfl⟩
  | cons p rest ih =>
    intro ist k h
    have h1 := calcStep_views_ne maxP T ist p.1 k p.2 (h p (by simp))
    have h2 := ih (calcStep maxP T ist p.1 p.2) k (fun q hq => h q (List.mem_cons_of_mem p hq))
    exact ⟨h2.1.trans h1.1, h2.2.trans h1.2⟩

theorem calcStep_fresh (maxP T : Int) (ist : InstState) (name : String) (attr : BAttr)
    (hv : lookupA ist.attrViews name = none)
    (hi : lookupA ist.attributeIndices name = none) :
    lookupA (calcStep maxP T ist name attr).attrViews name =
      some (freshView maxP T ist.particleAmount attr) ∧
    lookupA (calcStep maxP T ist name attr).attributeIndices name =
      freshIndex maxP T attr := by
  unfold calcStep freshView freshIndex
  by_cases hc : (attr.count : Int) ≥ maxP
  · rw [if_pos hc, if_pos hc, if_pos hc]
    dsimp only
    rw [hi]
    exact ⟨lookupA_updateA_self _ _ _, lookupA_updateA_self _ _ _⟩
  · rw [if_neg hc, if_neg hc, if_neg hc]
    rw [hv]
    simp only [Option.isNone_none, if_true]
    exact ⟨lookupA_updateA_self _ _ _, hi⟩

theorem calcSubarrays_fresh (maxP T : Int) :
    ∀ (l : List (String × BAttr)) (ist : InstState) (name : String) (attr : BAttr),
      (l.map Prod.fst).Nodup →
      lookupA l name = some attr →
      lookupA ist.attrViews name = none →
      lookupA ist.attributeIndices name = none →
      lookupA (calcSubarrays maxP T l ist).attrViews name =
        some (freshView maxP T ist.particleAmount attr) ∧
      lookupA (calcSubarrays maxP T l ist).attributeIndices name =
        freshIndex maxP T attr := by
  intro l
  induction l with
  | nil => intro ist name attr _ hl; exact absurd hl (by simp [lookupA])
  | cons p rest ih =>
    intro ist name attr hnd hl hv hi
    obtain ⟨k, a⟩ := p
    by_cases hk : k = name
    · subst hk
      have hattr : attr = a := by
        unfold lookupA at hl
        rw [if_pos rfl] at hl
        exact (Option.some.inj hl).symm
      subst hattr
      have hstep := calcStep_fresh maxP T ist k attr hv hi
      have hnd' : (k :: rest.map Prod.fst).Nodup := by simpa using hnd
      have hnotin : ∀ q ∈ rest, q.1 ≠ k := by
        intro q hq
        have hknotin := (List.nodup_cons.mp hnd').1
        exact fun he => hknotin (he ▸ List.mem_map_of_mem Prod.fst hq)
      have hpres := calcSubarrays_notin maxP T rest (calcStep maxP T ist k attr) k hnotin
      exact ⟨hpres.1.trans hstep.1, hpres.2.trans hstep.2⟩
    · have hl' : lookupA rest name = some attr := by
        unfold lookupA at hl
        rw [if_neg hk] at hl
        exact hl
      have hstep := calcStep_views_ne maxP T ist k name a hk
      have hnd' : (k :: rest.map Prod.fst).Nodup := by simpa using hnd
      have hih := ih (calcStep maxP T ist k a) name attr
        (List.nodup_cons.mp hnd').2
        hl' (hstep.1.trans hv) (hstep.2.trans hi)
      rw [calcStep_pa] at hih
      exact hih

theorem newInstance_inst (s : Sys) (pa : Int) :
    (newInstance s pa).insts.get? s.insts.length =
      some (calcSubarrays s.em.maxParticles s.em.geo.instanceCount s.em.geo.attrs
        { particleAmount := pa, attributeIndices := [], attrViews := [] }) := by
  unfold newInstance instanceAdded
  dsimp only
  split
  · exact List.get?_concat_length _ _
  · split
    · exact List.get?_concat_length _ _
    · exact List.get?_concat_length _ _

theorem freshView_perInstance (maxP : Int) (t n : Nat) (attr : BAttr)
    (hpi : (attr.count : Int) ≥ maxP) :
    freshView maxP (t : Int) (n : Int) attr =
      .sub (min (t * attr.itemSize) attr.array.length)
           (min (t * attr.itemSize + n * attr.itemSize) attr.array.length) ∧
    freshIndex maxP (t : Int) attr = some (t * attr.itemSize) := by
  have hst : max (0 : Int) ((t : Int) * (attr.itemSize : Int)) =
      ((t * attr.itemSize : Nat) : Int) := by
    push_cast
    exact max_eq_right (by positivity)
  have hend : min ((attr.array.length : Nat) : Int)
        (((t * attr.itemSize : Nat) : Int) + (n : Int) * (attr.itemSize : Int)) =
      ((min (t * attr.itemSize + n * attr.itemSize) attr.array.length : Nat) : Int) := by
    push_cast
    omega
  unfold freshView freshIndex
  rw [if_pos hpi, if_pos hpi]
  dsimp only
  rw [hst, hend]
  unfold relIndex
  rw [if_neg (by omega), if_neg (by omega)]
  constructor
  · rw [Int.toNat_natCast, Int.toNat_natCast]
    congr 1
    omega
  · rw [Int.toNat_natCast]

/-- C5: registering a fresh instance with `itemCount = n` against a group
whose aggregate count is `t` gives, for every per-instance attribute
(`count ≥ maxParticles`) of item width `w`, a recorded base offset of
exactly `t * w` and a view `[t*w, t*w + n*w)`; when that range would
exceed the buffer, the view is truncated (clamped by `min` against the
buffer length) instead of any error being raised. -/
theorem c5_fresh_view_placement (s : Sys) (name : String) (attr : BAttr) (n t : Nat)
    (hnd : (s.em.geo.attrs.map Prod.fst).Nodup)
    (hl : lookupA s.em.geo.attrs name = some attr)
    (hpi : (attr.count : Int) ≥ s.em.maxParticles)
    (hT : s.em.geo.instanceCount = (t : Int)) :
    ∃ inst, (newInstance s (n : Int)).insts.get? s.insts.length = some inst ∧
      lookupA inst.attributeIndices name = some (t * attr.itemSize) ∧
      lookupA inst.attrViews name =
        some (.sub (min (t * attr.itemSize) attr.array.length)
                   (min (t * attr.itemSize + n * attr.itemSize) attr.array.length)) ∧
      (t * attr.itemSize + n * attr.itemSize ≤ attr.array.length →
        lookupA inst.attrViews name =
          some (.sub (t * attr.itemSize) (t * attr.itemSize + n * attr.itemSize))) := by
  refine ⟨_, newInstance_inst s (n : Int), ?_⟩
  rw [hT]
  have hfresh := calcSubarrays_fresh s.em.maxParticles ((t : Nat) : Int)
    s.em.geo.attrs { particleAmount := (n : Int), attributeIndices := [], attrViews := [] }
    name attr hnd hl rfl rfl
  obtain ⟨hcomp1, hcomp2⟩ := freshView_perInstance s.em.maxParticles t n attr hpi
  rw [hcomp1, hcomp2] at hfresh
  refine ⟨hfresh.2, hfresh.1, fun hfit => ?_⟩
  rw [hfresh.1]
  congr 2
  · omega
  · omega

/-- Witness for C5: `maxParticles = 2`, attribute `p` with item width 3
and 12 slots (`count = 4 ≥ 2`), empty group (`t = 0`), register `n = 2`:
base offset 0, view `[0, 6)`. -/
theorem c5_fresh_view_placement_witness :
    ∃ inst, (newInstance c5Sys 2).insts.get? 0 = some inst ∧
      lookupA inst.attributeIndices "p" = some 0 ∧
      lookupA inst.attrViews "p" = some (.sub 0 6) ∧
      (0 + 2 * 3 ≤ 12 → lookupA inst.attrViews "p" = some (.sub 0 6)) := by
  have h := c5_fresh_view_placement c5Sys "p"
    { array := List.replicate 12 0, itemSize := 3, needsUpdate := false, isInstanced := true }
    2 0 (by decide) rfl (by decide) rfl
  simpa using h

/-- C10: when a freshly constructed `EmitterInstance` computes its views,
an attribute is given a bounded per-instance subarray view exactly when
its `count` is at least the emitter's `maxParticles`; every attribute
with `count < maxParticles` — whatever its declared type (the
`isInstanced` flag of `attr` is arbitrary here and never consulted) — is
exposed as a view of the entire shared buffer. -/
theorem c10_view_classification (s : Sys) (name : String) (attr : BAttr) (pa : Int)
    (hnd : (s.em.geo.attrs.map Prod.fst).Nodup)
    (hl : lookupA s.em.geo.attrs name = some attr) :
    ∃ inst, (newInstance s pa).insts.get? s.insts.length = some inst ∧
      ((attr.count : Int) ≥ s.em.maxParticles →
        ∃ a b, lookupA inst.attrViews name = some (.sub a b)) ∧
      ((attr.count : Int) < s.em.maxParticles →
        lookupA inst.attrViews name = some .whole) := by
  have hfresh := calcSubarrays_fresh s.em.maxParticles s.em.geo.instanceCount
    s.em.geo.attrs { particleAmount := pa, attributeIndices := [], attrViews := [] }
    name attr hnd hl rfl rfl
  refine ⟨_, newInstance_inst s pa, ?_, ?_⟩
  · intro hge
    have h1 := hfresh.1
    unfold freshView at h1
    rw [if_pos hge] at h1
    exact ⟨_, _, h1⟩
  · intro hlt
    have h1 := hfresh.1
    unfold freshView at h1
    rw [if_neg (by omega)] at h1
    exact h1

/-- Witness for C10: in `c10Sys` the attribute `u` has `count = 4 < 10 =
maxParticles` and is declared non-instanced; the fresh instance receives
the whole-buffer view. -/
theorem c10_view_classification_witness :
    ∃ inst, (newInstance c10Sys 2).insts.get? 0 = some inst ∧
      lookupA inst.attrViews "u" = some ViewKind.whole := by
  obtain ⟨inst, h1, _, h3⟩ := c10_view_classification c10Sys "u"
    { array := List.replicate 4 0, itemSize := 1, needsUpdate := false, isInstanced := false }
    2 (by decide) rfl
  exact ⟨inst, h1, h3 (by decide)⟩

end ThreeEmitter
